import Mathlib

/-!
Verification development for the godel plugin task invocation protocol and
legacy configuration migration pipeline.

The definitions below are shallow embeddings of the Go source:

* `apps/distgo/cmd/publish/publish.go` — checksums and publish helpers, plus
  the `pluginapi` task-descriptor code (`NewTaskInfo`, `globalFlagArgs`,
  `toTask`).
* `framework/builtintasks/upgradelegacyconfig.go` — the migration
  orchestrator (`UpgradeLegacyConfigTask`, `hardCodedLegacyUpgraders`,
  `upgradeLegacyConfig`, `processUnhandledYMLFiles`).
* `framework/godel/config` (dist configuration) — `RawDistConfigs.UnmarshalYAML`.

External collaborators (the YAML library, `path.Dir`/`path.Join`, the
config-directory resolution policy, and the backup utility, none of which are
part of the sources) are modelled explicitly; each such definition carries a
doc comment saying what it models.
-/

/- ### Checksums (publish.go lines 174-202) -/

/-- Embeds the `checksums` struct of publish.go: the three hex-encoded digests
of a file, any of which may be empty (unknown). -/
structure Checksums where
  SHA1 : String
  SHA256 : String
  MD5 : String
deriving DecidableEq

/-- Embeds `nonEmptyEqual` (publish.go line 196): both strings non-empty and
equal. -/
def nonEmptyEqual (s1 s2 : String) : Bool :=
  decide (s1 ≠ "" ∧ s2 ≠ "" ∧ s1 = s2)

/-- Embeds `nonEmptyDiffer` (publish.go line 200): both strings non-empty and
different. -/
def nonEmptyDiffer (s1 s2 : String) : Bool :=
  decide (s1 ≠ "" ∧ s2 ≠ "" ∧ s1 ≠ s2)

/-- Embeds `checksums.match` (publish.go lines 180-194): true when at least
one digest pair is non-empty on both sides and equal, and no digest pair is
non-empty on both sides and different. -/
def Checksums.match' (c other : Checksums) : Bool :=
  let someEqual := nonEmptyEqual c.MD5 other.MD5 || nonEmptyEqual c.SHA1 other.SHA1 ||
    nonEmptyEqual c.SHA256 other.SHA256
  if !someEqual then false
  else if nonEmptyDiffer c.MD5 other.MD5 || nonEmptyDiffer c.SHA1 other.SHA1 ||
      nonEmptyDiffer c.SHA256 other.SHA256 then false
  else true

/- ### Task descriptors: pluginapi `NewTaskInfo` and argv construction -/

/-- Embeds Go `unicode.IsSpace`: the Unicode White_Space code points
(U+0009-U+000D, U+0020, U+0085, U+00A0, U+1680, U+2000-U+200A, U+2028,
U+2029, U+202F, U+205F, U+3000). -/
def goIsSpace (c : Char) : Bool :=
  let n := c.toNat
  decide ((9 ≤ n ∧ n ≤ 13) ∨ n = 32 ∨ n = 0x85 ∨ n = 0xA0 ∨ n = 0x1680 ∨
    (0x2000 ≤ n ∧ n ≤ 0x200A) ∨ n = 0x2028 ∨ n = 0x2029 ∨ n = 0x202F ∨
    n = 0x205F ∨ n = 0x3000)

/-- Embeds `godellauncher.GlobalFlagOptions`: the literal spellings of the
global flags a task accepts; an empty string means the flag is not accepted.
This is also the resolved form of `globalFlagOptionsImpl`. -/
structure GlobalFlagOptions where
  DebugFlag : String := ""
  ProjectDirFlag : String := ""
  GodelConfigFlag : String := ""
  ConfigFlag : String := ""
deriving DecidableEq

/-- Embeds `verifyFlagImpl` of the pluginapi (name, description, type of one
verify sub-flag). The flag type enumeration is collapsed to a string. -/
structure VerifyFlag where
  NameVar : String
  DescriptionVar : String
  TypeVar : String
deriving DecidableEq

/-- Embeds `verifyOptionsImpl` of the pluginapi. -/
structure VerifyOptions where
  VerifyTaskFlagsVar : List VerifyFlag := []
  OrderingVar : List String := []
  ApplyTrueArgsVar : List String := []
  ApplyFalseArgsVar : List String := []
deriving DecidableEq

/-- Embeds `taskInfoImpl` of the pluginapi: the JSON-serializable description
of one plugin task. `none` models a nil pointer field. -/
structure TaskInfoImpl where
  NameVar : String
  DescriptionVar : String
  CommandVar : List String := []
  GlobalFlagOptionsVar : Option GlobalFlagOptions := none
  VerifyOptionsVar : Option VerifyOptions := none

/-- Embeds `TaskInfoParam`: a functional option mutating a draft
`TaskInfoImpl`; `none` models a nil parameter, which `NewTaskInfo` skips. -/
def TaskInfoParam : Type := Option (TaskInfoImpl → TaskInfoImpl)

/-- Embeds `NewTaskInfo` (pluginapi): fails when the name contains a
whitespace rune (per `unicode.IsSpace`), otherwise builds the base descriptor
and applies the non-nil params in order. -/
def NewTaskInfo (name description : String) (params : List TaskInfoParam) :
    Except String TaskInfoImpl :=
  if name.data.any goIsSpace then
    .error ("task name cannot contain whitespace: " ++ name)
  else
    .ok (params.foldl
      (fun impl p =>
        match p with
        | none => impl
        | some f => f impl)
      { NameVar := name, DescriptionVar := description })

/-- Embeds the relevant fields of `godellauncher.Task` (the resolved runtime
form): the config file name for this task and the resolved global flag
options. `Name`, `Description` and `Verify` are carried but unused by argv
construction. -/
structure GodelTask where
  Name : String
  Description : String
  ConfigFile : String
  GlobalFlagOpts : GlobalFlagOptions

/-- Embeds `godellauncher.GlobalConfig`: process-wide context passed into
every task at invocation time. -/
structure GlobalConfig where
  Wrapper : String
  Debug : Bool
  Executable : String := ""
  Task : String := ""
  TaskArgs : List String := []

/-- Models Go `path.Dir` (standard library, external to the sources): the
parent directory of a path, `.` when the path has no slash. Path cleaning of
repeated slashes is not modelled; the argv theorems treat this value
opaquely. -/
def pathDir (p : String) : String :=
  let parts := p.splitOn "/"
  if parts.length ≤ 1 then "." else String.intercalate "/" parts.dropLast

/-- Models Go `path.Join` (standard library, external to the sources) for two
non-empty, already-clean components. -/
def pathJoin (a b : String) : String := a ++ "/" ++ b

/-- Modelled from the spec: `godellauncher.ConfigDirPath` resolves the
project configuration directory as a fixed subdirectory of the project
directory ("a fixed subdirectory under the project root"). -/
def ConfigDirPath (projectDir : String) : String :=
  pathJoin (pathJoin projectDir "godel") "config"

/-- Embeds `godellauncher.GödelConfigYML`: the name of the central config
descriptor file. -/
def GodelConfigYML : String := "godel.yml"

/-- Embeds `taskInfoImpl.globalFlagArgs` (publish.go corpus lines 490-525):
the global-flag prefix of the plugin argv. -/
def globalFlagArgs (t : GodelTask) (global : GlobalConfig) : List String :=
  let args : List String :=
    if global.Debug ∧ t.GlobalFlagOpts.DebugFlag ≠ "" then [t.GlobalFlagOpts.DebugFlag]
    else []
  if global.Wrapper = "" then args
  else
    let projectDir := pathDir global.Wrapper
    let args :=
      if t.GlobalFlagOpts.ProjectDirFlag ≠ "" then
        args ++ [t.GlobalFlagOpts.ProjectDirFlag, projectDir]
      else args
    if t.GlobalFlagOpts.GodelConfigFlag = "" ∧
        (t.GlobalFlagOpts.ConfigFlag = "" ∨ t.ConfigFile = "") then args
    else
      let cfgDir := ConfigDirPath projectDir
      let args :=
        if t.GlobalFlagOpts.GodelConfigFlag ≠ "" then
          args ++ [t.GlobalFlagOpts.GodelConfigFlag, pathJoin cfgDir GodelConfigYML]
        else args
      if t.GlobalFlagOpts.ConfigFlag ≠ "" ∧ t.ConfigFile ≠ "" then
        args ++ [t.GlobalFlagOpts.ConfigFlag, pathJoin cfgDir t.ConfigFile]
      else args

/-- Embeds the `Task` value built by `taskInfoImpl.toTask` for a given config
file name (the `RunImpl` closure is embedded separately as `runPluginTask`). -/
def TaskInfoImpl.toTask (ti : TaskInfoImpl) (cfgFileName : String) : GodelTask :=
  { Name := ti.NameVar
    Description := ti.DescriptionVar
    ConfigFile := cfgFileName
    GlobalFlagOpts := ti.GlobalFlagOptionsVar.getD {} }

/-- Embeds the argv assembled by the `RunImpl` closure of
`taskInfoImpl.toTask`: the global-flag prefix, then the fixed command tokens,
then the caller-supplied task arguments. -/
def toTaskArgv (ti : TaskInfoImpl) (t : GodelTask) (global : GlobalConfig) : List String :=
  globalFlagArgs t global ++ ti.CommandVar ++ global.TaskArgs

/- ### Subprocess outcome mapping (toTask RunImpl, lines 467-487) -/

/-- Abstract outcome of spawning the plugin subprocess: it ran and exited
zero, it ran and exited non-zero (Go `exec.ExitError`), or it could not be
started or completed at all (any other error from `cmd.Run`, carrying the
cause). -/
inductive SpawnResult where
  | success
  | exitError (status : Nat)
  | launchError (cause : String)

/-- Embeds the `RunImpl` closure of `taskInfoImpl.toTask`: spawn the plugin
with the assembled argv; a non-zero exit maps to an error with an empty
message (`fmt.Errorf("")`), any other failure is wrapped with the context
"plugin execution failed" (`errors.Wrapf`). -/
def runPluginTask (ti : TaskInfoImpl) (cfgFileName : String) (global : GlobalConfig)
    (spawn : List String → SpawnResult) : Except String Unit :=
  match spawn (toTaskArgv ti (ti.toTask cfgFileName) global) with
  | .success => .ok ()
  | .exitError _ => .error ""
  | .launchError cause => .error ("plugin execution failed: " ++ cause)

/- ### RawDistConfigs.UnmarshalYAML (dist config) -/

/-- Abstract YAML shape offered to `RawDistConfigs.UnmarshalYAML`: the
`unmarshal` callback succeeds on a sequence (or a null value, which yields
the empty list) when the target is a slice, succeeds on a mapping when the
target is a single dist, and fails on both otherwise. The element type is
abstract: the orchestrating code never inspects it. -/
inductive RawDistYaml (α : Type) where
  | seqOf (ds : List α)
  | mapping (d : α)
  | invalid (msg : String)

/-- Embeds `RawDistConfigs.UnmarshalYAML`: try the slice target first; a
successful but empty slice is rejected; otherwise fall back to a single dist
mapping, wrapping it in a one-element list; if neither target unmarshals the
single-dist error is returned. -/
def unmarshalRawDistConfigs {α : Type} : RawDistYaml α → Except String (List α)
  | .seqOf ds =>
    if ds.isEmpty then
      .error "if `dist` key is specified, there must be at least one dist"
    else .ok ds
  | .mapping d => .ok [d]
  | .invalid msg => .error msg

/- ### Config directory model -/

/-- The configuration directory, modelled as an association list from file
name to file bytes. Directory enumeration order is the list order (Go
`ioutil.ReadDir` returns entries sorted by name; theorems that depend on the
listing sort it explicitly). -/
abbrev FileSys : Type := List (String × String)

/-- Read the bytes of a file; `none` when the file does not exist. -/
def fsRead (fs : FileSys) (name : String) : Option String :=
  (fs.find? (fun p => p.1 = name)).map (fun p => p.2)

/-- Models `os.Stat` existence checking. -/
def fsExists (fs : FileSys) (name : String) : Bool :=
  (fs.find? (fun p => p.1 = name)).isSome

/-- Models `ioutil.WriteFile`: replace the content of an existing file or
create the file. -/
def fsWrite (fs : FileSys) (name content : String) : FileSys :=
  if fsExists fs name then
    fs.map (fun p => if p.1 = name then (name, content) else p)
  else fs ++ [(name, content)]

/-- Models file removal (the source half of a rename). -/
def fsRemove (fs : FileSys) (name : String) : FileSys :=
  fs.filter (fun p => p.1 ≠ name)

/-- Models Go `strings.HasSuffix` (used to select the `.yml` files of the
config directory). -/
def goHasSuffix (s suffix : String) : Bool :=
  decide (suffix.data <:+ s.data)

/-- Byte-wise lexicographic comparison on character lists, the order used by
Go `sort.Strings`. -/
def charListLe : List Char → List Char → Bool
  | [], _ => true
  | _ :: _, [] => false
  | a :: as, b :: bs => if a < b then true else if b < a then false else charListLe as bs

/-- Lexicographic comparison of strings, modelling the order of Go
`sort.Strings`. -/
def strLe (a b : String) : Bool := charListLe a.data b.data

/-- Models Go `sort.Strings`: sort a list of strings lexicographically. -/
def sortStrings (l : List String) : List String :=
  l.insertionSort (fun a b => strLe a b = true)

/-- Embeds `dirYMLFiles` (upgradelegacyconfig.go lines 227-242): the names of
the files of the config directory ending in `.yml`, in directory-listing
(sorted) order. -/
def dirYMLFiles (fs : FileSys) : List String :=
  sortStrings ((fs.map (fun p => p.1)).filter (fun n => goHasSuffix n ".yml"))

/- ### Exclude merge (hardCodedLegacyUpgraders, lines 150-225) -/

/-- Embeds `matcher.NamesPathsCfg`: the name patterns and path patterns of an
exclude configuration. -/
structure NamesPathsCfg where
  Names : List String
  Paths : List String
deriving DecidableEq

/-- Embeds the `Exclude` portion of the godel configuration read by
`config.ReadGodelConfigFromFile` (the only portion the exclude upgrader
touches). -/
structure GodelConfig where
  Exclude : NamesPathsCfg
deriving DecidableEq

/-- Embeds lines 175-198 of upgradelegacyconfig.go exactly: the two merge
loops of the built-in exclude upgrader. The membership sets `existingNames`
and `existingPaths` are computed once from the current configuration before
either loop runs, as in the source. Note that the second loop assigns the
result of appending to `Exclude.Paths` back to `Exclude.Names`, exactly as
the source does. Returns the updated configuration and the `modified` flag. -/
def mergeExcludeCfg (excludeCfg : NamesPathsCfg) (currentGodelConfig : GodelConfig) :
    GodelConfig × Bool :=
  let existingNames := currentGodelConfig.Exclude.Names
  let existingPaths := currentGodelConfig.Exclude.Paths
  let afterNames := excludeCfg.Names.foldl
    (fun (acc : GodelConfig × Bool) legacyName =>
      if legacyName ∈ existingNames then acc
      else ({ Exclude := { acc.1.Exclude with Names := acc.1.Exclude.Names ++ [legacyName] } }, true))
    (currentGodelConfig, false)
  excludeCfg.Paths.foldl
    (fun (acc : GodelConfig × Bool) legacyPath =>
      if legacyPath ∈ existingPaths then acc
      else ({ Exclude := { acc.1.Exclude with Names := acc.1.Exclude.Paths ++ [legacyPath] } }, true))
    afterNames

/- ### Backup utility (external to the sources) -/

/-- Modelled from the spec: the backup utility renames a superseded file in
place "using a convention that avoids collision with any prior backup". The
missing source is `backupConfigFile`'s naming policy; the model appends the
names of all current files plus a `.back` suffix, which is longer than every
existing name and therefore fresh, and never ends in `.yml`. -/
def backupName (fs : FileSys) (name : String) : String :=
  fs.foldl (fun acc p => acc ++ p.1) (name ++ ".back") ++ ".back"

/-- Mutable state threaded through one migration run: the config directory
and the log of file names this run has written (by `ioutil.WriteFile` or as
the destination of a backup rename). -/
structure RunState where
  fs : FileSys
  writes : List String
deriving DecidableEq

/-- Modelled from the spec: `backupConfigFile` (external to the sources) is a
scoped rename out of the active name: a no-op when the source file does not
exist, a log-only action under dry-run, otherwise a rename to a
collision-free backup destination. -/
def backupConfigFile (st : RunState) (name : String) (dryRun : Bool) : RunState :=
  if fsExists st.fs name then
    if dryRun then st
    else
      let dst := backupName st.fs name
      let content := (fsRead st.fs name).getD ""
      { fs := fsWrite (fsRemove st.fs name) dst content, writes := st.writes ++ [dst] }
  else st

/- ### YAML codec (external collaborator) and upgrade tasks -/

/-- An order-preserving generic key-value document (`yaml.MapSlice`); values
are modelled as their rendered text. -/
abbrev MapSlice : Type := List (String × String)

/-- The YAML primitives used by the migration pipeline. The spec treats
YAML parsing and serialization as an external collaborator; theorems
quantify over the codec and witnesses instantiate it concretely.
`readGodelConfig` models `config.ReadGodelConfigFromFile` applied to the
content of `godel.yml` (`none` when the file is absent). -/
structure YamlCodec where
  parseNamesPaths : String → Except String NamesPathsCfg
  readGodelConfig : Option String → Except String GodelConfig
  marshalGodel : GodelConfig → String
  parseMapSlice : String → Except String MapSlice
  marshalMapSlice : MapSlice → String

/-- Embeds `godellauncher.UpgradeConfigTask`: a plugin-declared migration.
`Run` is the plugin-supplied byte transform (legacy bytes to current-format
bytes), modelled as a deterministic function. -/
structure UpgradeConfigTask where
  ID : String
  ConfigFile : String
  LegacyConfigFile : String
  Run : String → Except String String

/- ### Built-in exclude upgrader (lines 153-223) -/

/-- Embeds the `upgradeConfigFn` of the built-in `exclude.yml` upgrader
(upgradelegacyconfig.go lines 153-223): if `exclude.yml` exists, parse it,
merge it into the current godel configuration, back up `exclude.yml`, and
when the merge changed anything write the re-marshalled configuration to
`godel.yml` (skipped under dry-run). Returns the updated run state and the
error, if any. -/
def excludeUpgradeConfig (codec : YamlCodec) (st : RunState) (dryRun : Bool) :
    RunState × Option String :=
  if fsExists st.fs "exclude.yml" then
    let legacyConfigBytes := (fsRead st.fs "exclude.yml").getD ""
    match codec.parseNamesPaths legacyConfigBytes with
    | .error e => (st, some ("failed to unmarshal legacy exclude configuration: " ++ e))
    | .ok excludeCfg =>
      match codec.readGodelConfig (fsRead st.fs "godel.yml") with
      | .error e => (st, some ("failed to read godel configuration: " ++ e))
      | .ok currentGodelConfig =>
        let merged := mergeExcludeCfg excludeCfg currentGodelConfig
        let st := backupConfigFile st "exclude.yml" dryRun
        if merged.2 = false then (st, none)
        else
          let upgradedCfgBytes := codec.marshalGodel merged.1
          if dryRun then (st, none)
          else
            ({ fs := fsWrite st.fs "godel.yml" upgradedCfgBytes,
               writes := st.writes ++ ["godel.yml"] }, none)
  else (st, none)

/-- Embeds `upgradeLegacyConfig` (upgradelegacyconfig.go lines 262-313): the
per-task plugin upgrade. No-op when the legacy file is absent; otherwise
parse the legacy file as an order-preserving document, prepend the
`legacy-config: true` marker, re-serialize, run the plugin transform, back up
the legacy file and any pre-existing destination file, and write the
destination unless the transform returned empty bytes (write skipped under
dry-run). -/
def upgradeLegacyConfig (codec : YamlCodec) (upgradeTask : UpgradeConfigTask)
    (st : RunState) (dryRun : Bool) : RunState × Option String :=
  if fsExists st.fs upgradeTask.LegacyConfigFile then
    let legacyConfigBytes := (fsRead st.fs upgradeTask.LegacyConfigFile).getD ""
    match codec.parseMapSlice legacyConfigBytes with
    | .error e => (st, some ("failed to unmarshal YAML configuration: " ++ e))
    | .ok ymlConfig =>
      let ymlCfgBytes := codec.marshalMapSlice (("legacy-config", "true") :: ymlConfig)
      match upgradeTask.Run ymlCfgBytes with
      | .error e => (st, some ("failed to upgrade configuration: " ++ e))
      | .ok upgradedCfgBytes =>
        let st := backupConfigFile st upgradeTask.LegacyConfigFile dryRun
        let st := backupConfigFile st upgradeTask.ConfigFile dryRun
        if upgradedCfgBytes = "" then (st, none)
        else if dryRun then (st, none)
        else
          ({ fs := fsWrite st.fs upgradeTask.ConfigFile upgradedCfgBytes,
             writes := st.writes ++ [upgradeTask.ConfigFile] }, none)
  else (st, none)

/-- Embeds the loop body of `processUnhandledYMLFiles` (lines 321-335): an
empty unhandled file is backed up, a non-empty one is collected. -/
def unhandledStep (dryRun : Bool) (acc : RunState × List String)
    (currUnknownFile : String) : RunState × List String :=
  let bytes := (fsRead acc.1.fs currUnknownFile).getD ""
  if bytes = "" then (backupConfigFile acc.1 currUnknownFile dryRun, acc.2)
  else (acc.1, acc.2 ++ [currUnknownFile])

/-- Embeds `processUnhandledYMLFiles` (upgradelegacyconfig.go lines 315-345):
back up each empty unhandled file silently and collect the non-empty ones.
Returns the updated state and the list of non-empty unhandled files named by
the single combined warning (empty list: no warning is printed). -/
def processUnhandledYMLFiles (st : RunState) (unknownYMLFiles : List String)
    (dryRun : Bool) : RunState × List String :=
  unknownYMLFiles.foldl (unhandledStep dryRun) (st, [])

/- ### The migration run (UpgradeLegacyConfigTask RunE, lines 66-141) -/

/-- Embeds `upgradeError` (the formatted failed-upgrade entry); the
project-relative path prefix is collapsed to the file name. -/
def upgradeError (file err : String) : String := file ++ ": " ++ err

/-- Embeds the construction of `upgradeTasksMap` followed by lookup: a Go map
write for every task in order, so for duplicate IDs the last task wins. -/
def taskLookup (upgradeTasks : List UpgradeConfigTask) (id : String) :
    Option UpgradeConfigTask :=
  upgradeTasks.foldl (fun acc t => if t.ID = id then some t else acc) none

/-- Embeds lines 98-108: the IDs of the tasks that declare a legacy config
file, sorted lexicographically (`sort.Strings`). -/
def pendingIDs (upgradeTasks : List UpgradeConfigTask) : List String :=
  sortStrings (((upgradeTasks.filter (fun t => t.LegacyConfigFile ≠ "")).map
    (fun t => t.ID)))

/-- Embeds lines 99-102: every task's current config file is marked known. -/
def knownAfterTasks (upgradeTasks : List UpgradeConfigTask) (init : Finset String) :
    Finset String :=
  upgradeTasks.foldl (fun s t => insert t.ConfigFile s) init

/-- Accumulator of the plugin-upgrader loop: run state, known config files,
failed upgrades, and the IDs of the tasks whose upgrade was invoked, in
order. -/
structure PluginLoopAcc where
  state : RunState
  known : Finset String
  failed : List String
  processed : List String

/-- Embeds one iteration of the loop at lines 109-120: look the ID up in the
task map (skipping IDs with no upgrader), mark the legacy file known, and run
the per-task upgrade, appending a formatted entry to the failures on error. -/
def pluginStep (codec : YamlCodec) (dryRun : Bool)
    (lookup : String → Option UpgradeConfigTask) (acc : PluginLoopAcc) (k : String) :
    PluginLoopAcc :=
  match lookup k with
  | none => acc
  | some upgradeTask =>
    let known := insert upgradeTask.LegacyConfigFile acc.known
    match upgradeLegacyConfig codec upgradeTask acc.state dryRun with
    | (st, some e) =>
      { state := st, known := known,
        failed := acc.failed ++ [upgradeError upgradeTask.ConfigFile e],
        processed := acc.processed ++ [k] }
    | (st, none) =>
      { state := st, known := known, failed := acc.failed,
        processed := acc.processed ++ [k] }

/-- Result of one migration run. `unhandledWarning` is `some fs` when the
single combined warning naming the non-empty unhandled files `fs` was
printed. `failed = true` models the non-nil (empty-message) error returned
after the aggregated failure report. -/
structure MigrationResult where
  state : RunState
  known : Finset String
  failedUpgrades : List String
  unhandledWarning : Option (List String)
  processed : List String
  failed : Bool

/-- Embeds the `RunE` body of `UpgradeLegacyConfigTask` (upgradelegacyconfig.go
lines 66-141): record the original `.yml` files, run the hard-coded upgraders
(marking their file names known regardless of outcome), mark every task's
config file known, process the tasks with a legacy file in sorted ID order,
then process the unhandled files and aggregate failures. -/
def upgradeLegacyConfigRun (codec : YamlCodec) (upgradeTasks : List UpgradeConfigTask)
    (fs0 : FileSys) (dryRun : Bool) : MigrationResult :=
  let originalYMLFiles := dirYMLFiles fs0
  let st0 : RunState := { fs := fs0, writes := [] }
  let builtin := excludeUpgradeConfig codec st0 dryRun
  let failed0 : List String :=
    match builtin.2 with
    | some e => [upgradeError "exclude.yml" e]
    | none => []
  let known0 : Finset String := {"exclude.yml"}
  let known1 := knownAfterTasks upgradeTasks known0
  let acc0 : PluginLoopAcc :=
    { state := builtin.1, known := known1, failed := failed0, processed := [] }
  let acc := (pendingIDs upgradeTasks).foldl
    (pluginStep codec dryRun (taskLookup upgradeTasks)) acc0
  let unhandledYMLFiles := originalYMLFiles.filter (fun k => ¬ k ∈ acc.known)
  let afterUnhandled := processUnhandledYMLFiles acc.state unhandledYMLFiles dryRun
  { state := afterUnhandled.1
    known := acc.known
    failedUpgrades := acc.failed
    unhandledWarning := if afterUnhandled.2 = [] then none else some afterUnhandled.2
    processed := acc.processed
    failed := acc.failed ≠ [] }

/-- A concrete directory state for the C6 witness: one empty and one
non-empty unhandled YAML file. -/
def c6State : RunState := { fs := [("a.yml", ""), ("b.yml", "second")], writes := [] }

/-- A codec whose parsers are never reached (used with an empty directory),
for the C4 counterexample and witness. -/
def c4Codec : YamlCodec :=
  { parseNamesPaths := fun _ => .error "unused",
    readGodelConfig := fun _ => .error "unused",
    marshalGodel := fun _ => "",
    parseMapSlice := fun _ => .error "unused",
    marshalMapSlice := fun _ => "" }

/-- C4 counterexample data: a task with the same ID as `taskB` but different
files. -/
def taskA : UpgradeConfigTask :=
  { ID := "x", ConfigFile := "a.yml", LegacyConfigFile := "la.yml",
    Run := fun _ => .ok "" }

/-- C4 counterexample data: a task with the same ID as `taskA` but different
files. -/
def taskB : UpgradeConfigTask :=
  { ID := "x", ConfigFile := "b.yml", LegacyConfigFile := "lb.yml",
    Run := fun _ => .ok "" }

/-- C4 witness data: a task with a distinct ID. -/
def taskC : UpgradeConfigTask :=
  { ID := "alpha", ConfigFile := "c.yml", LegacyConfigFile := "lc.yml",
    Run := fun _ => .ok "" }

/-- C4 witness data: a task with a distinct ID. -/
def taskD : UpgradeConfigTask :=
  { ID := "beta", ConfigFile := "d.yml", LegacyConfigFile := "ld.yml",
    Run := fun _ => .ok "" }

/-- A concrete codec for the C2 failing input: the legacy exclude file parses
to one new path entry `build`, the current godel configuration has no
excludes, and re-marshalling yields non-empty bytes. -/
def c2Codec : YamlCodec :=
  { parseNamesPaths := fun _ => .ok { Names := [], Paths := ["build"] },
    readGodelConfig := fun _ => .ok { Exclude := { Names := [], Paths := [] } },
    marshalGodel := fun _ => "merged-config",
    parseMapSlice := fun _ => .ok [],
    marshalMapSlice := fun _ => "" }

/-- The C2 failing input: a config directory holding a non-empty legacy
`exclude.yml` and a non-empty central `godel.yml`. -/
def c2FS : FileSys := [("exclude.yml", "names-and-paths"), ("godel.yml", "existing-config")]

/- ### Claim-side argv fragments (spec section 4.1) -/

/-- The debug fragment of the argv as the spec words it: the debug flag
literal, present exactly when `Debug` is true and the descriptor accepts a
debug flag. -/
def debugArgsPart (t : GodelTask) (global : GlobalConfig) : List String :=
  if global.Debug ∧ t.GlobalFlagOpts.DebugFlag ≠ "" then [t.GlobalFlagOpts.DebugFlag]
  else []

/-- The wrapper-dependent fragment of the argv as the spec words it: the
project-dir, godel-config and plugin-config flag/value pairs for the flags
the descriptor accepts (the plugin-config pair also requires a non-empty
config file name, spec step 6). -/
def wrapperArgsPart (t : GodelTask) (global : GlobalConfig) : List String :=
  let projectDir := pathDir global.Wrapper
  let cfgDir := ConfigDirPath projectDir
  (if t.GlobalFlagOpts.ProjectDirFlag ≠ "" then
    [t.GlobalFlagOpts.ProjectDirFlag, projectDir] else []) ++
  (if t.GlobalFlagOpts.GodelConfigFlag ≠ "" then
    [t.GlobalFlagOpts.GodelConfigFlag, pathJoin cfgDir GodelConfigYML] else []) ++
  (if t.GlobalFlagOpts.ConfigFlag ≠ "" ∧ t.ConfigFile ≠ "" then
    [t.GlobalFlagOpts.ConfigFlag, pathJoin cfgDir t.ConfigFile] else [])

/- ### Concrete sample data for witnesses -/

/-- A concrete sample descriptor used by the C3 witness. -/
def sampleTaskInfo : TaskInfoImpl :=
  { NameVar := "fmt", DescriptionVar := "format", CommandVar := ["run-fmt"],
    GlobalFlagOptionsVar := some { DebugFlag := "--debug" } }

/-- A concrete sample global config with an empty wrapper, used by the C3
witness. -/
def sampleGlobalConfig : GlobalConfig :=
  { Wrapper := "", Debug := true, TaskArgs := ["-v"] }

lemma globalFlagArgs_eq (t : GodelTask) (global : GlobalConfig) :
    globalFlagArgs t global =
      debugArgsPart t global ++
        (if global.Wrapper = "" then [] else wrapperArgsPart t global) := by
  unfold globalFlagArgs debugArgsPart wrapperArgsPart
  by_cases hw : global.Wrapper = ""
  · simp [hw]
  · simp only [hw, if_false, if_neg hw]
    split_ifs <;> simp_all [List.append_assoc]

/-- Claim C3: the constructed argv is exactly the debug flag literal (when
`Debug` is true and the descriptor accepts a debug flag), then — only when
`Wrapper` is non-empty — the project-dir, godel-config and plugin-config
flag/value pairs for the flags the descriptor accepts, then the fixed
`Command` tokens, then the caller-supplied `TaskArgs` verbatim; when
`Wrapper` is empty no project-dir, godel-config or plugin-config flags
appear. -/
theorem toTaskArgv_structure (ti : TaskInfoImpl) (cfgFileName : String)
    (global : GlobalConfig) :
    toTaskArgv ti (ti.toTask cfgFileName) global =
      debugArgsPart (ti.toTask cfgFileName) global ++
        (if global.Wrapper = "" then []
          else wrapperArgsPart (ti.toTask cfgFileName) global) ++
        ti.CommandVar ++ global.TaskArgs ∧
    (global.Wrapper = "" →
      toTaskArgv ti (ti.toTask cfgFileName) global =
        debugArgsPart (ti.toTask cfgFileName) global ++ ti.CommandVar ++
          global.TaskArgs) := by
  constructor
  · unfold toTaskArgv
    rw [globalFlagArgs_eq]
  · intro hw
    unfold toTaskArgv
    rw [globalFlagArgs_eq, hw]
    simp

/-- Witness for C3 at a concrete descriptor and global config with an empty
wrapper. -/
theorem toTaskArgv_structure_witness :
    toTaskArgv sampleTaskInfo (sampleTaskInfo.toTask "fmt.yml") sampleGlobalConfig =
      debugArgsPart (sampleTaskInfo.toTask "fmt.yml") sampleGlobalConfig ++
        sampleTaskInfo.CommandVar ++ sampleGlobalConfig.TaskArgs :=
  (toTaskArgv_structure sampleTaskInfo "fmt.yml" sampleGlobalConfig).2 rfl

/- ### C7: subprocess outcome mapping -/

/-- Claim C7: when the plugin subprocess exits with a non-zero status the
task returns a failure whose message is empty, and when the subprocess
cannot be started the task returns a failure wrapping the cause with the
"plugin execution failed" context. -/
theorem runPluginTask_error_mapping (ti : TaskInfoImpl) (cfgFileName : String)
    (global : GlobalConfig) (spawn : List String → SpawnResult) :
    (∀ status,
      spawn (toTaskArgv ti (ti.toTask cfgFileName) global) = .exitError status →
        runPluginTask ti cfgFileName global spawn = .error "") ∧
    (∀ cause,
      spawn (toTaskArgv ti (ti.toTask cfgFileName) global) = .launchError cause →
        runPluginTask ti cfgFileName global spawn =
          .error ("plugin execution failed: " ++ cause)) := by
  constructor
  · intro status h
    unfold runPluginTask
    rw [h]
  · intro cause h
    unfold runPluginTask
    rw [h]

/-- Witness for C7: a spawn returning exit status 1, and a spawn failing to
launch, mapped at a concrete descriptor. -/
theorem runPluginTask_error_mapping_witness :
    runPluginTask { NameVar := "fmt", DescriptionVar := "d" } "" { Wrapper := "", Debug := false }
        (fun _ => .exitError 1) = .error "" ∧
    runPluginTask { NameVar := "fmt", DescriptionVar := "d" } "" { Wrapper := "", Debug := false }
        (fun _ => .launchError "executable file not found") =
      .error ("plugin execution failed: " ++ "executable file not found") :=
  ⟨(runPluginTask_error_mapping { NameVar := "fmt", DescriptionVar := "d" } ""
      { Wrapper := "", Debug := false } (fun _ => .exitError 1)).1 1 rfl,
    (runPluginTask_error_mapping { NameVar := "fmt", DescriptionVar := "d" } ""
      { Wrapper := "", Debug := false } (fun _ => .launchError "executable file not found")).2
      "executable file not found" rfl⟩

/- ### C8: NewTaskInfo validation -/

/-- Claim C8: task-descriptor construction fails exactly when the name
contains a whitespace character (per Go `unicode.IsSpace`); every name with
no whitespace character succeeds. -/
theorem newTaskInfo_fails_iff_whitespace (name description : String)
    (params : List TaskInfoParam) :
    ((∃ e, NewTaskInfo name description params = .error e) ↔
      ∃ c ∈ name.data, goIsSpace c = true) ∧
    ((∃ ti, NewTaskInfo name description params = .ok ti) ↔
      ∀ c ∈ name.data, goIsSpace c = false) := by
  unfold NewTaskInfo
  by_cases h : name.data.any goIsSpace = true
  · have hex := List.any_eq_true.mp h
    constructor
    · simp only [if_pos h]
      exact ⟨fun _ => hex, fun _ => ⟨_, rfl⟩⟩
    · simp only [if_pos h]
      constructor
      · rintro ⟨ti, hti⟩
        cases hti
      · intro hall
        obtain ⟨c, hc, hspace⟩ := hex
        rw [hall c hc] at hspace
        cases hspace
  · have hall : ∀ c ∈ name.data, goIsSpace c = false := by
      intro c hc
      by_contra hne
      exact h (List.any_eq_true.mpr ⟨c, hc, by simpa [Bool.not_eq_false] using hne⟩)
    constructor
    · simp only [if_neg h]
      constructor
      · rintro ⟨e, he⟩
        cases he
      · rintro ⟨c, hc, hspace⟩
        rw [hall c hc] at hspace
        cases hspace
    · simp only [if_neg h]
      exact ⟨fun _ => hall, fun _ => ⟨_, rfl⟩⟩

/- ### C9: RawDistConfigs.UnmarshalYAML -/

/-- Claim C9: every successful unmarshal of the dist list yields a non-empty
list; a YAML sequence is taken as-is (the empty sequence is rejected) and a
single mapping is wrapped into a one-element list. -/
theorem unmarshalRawDistConfigs_ok_nonEmpty {α : Type} (y : RawDistYaml α)
    (ds : List α) (h : unmarshalRawDistConfigs y = .ok ds) :
    ds ≠ [] ∧
    (∀ l, y = .seqOf l → ds = l) ∧
    (∀ d, y = .mapping d → ds = [d]) := by
  cases y with
  | seqOf l =>
    simp only [unmarshalRawDistConfigs] at h
    by_cases hl : l.isEmpty = true
    · rw [if_pos hl] at h
      cases h
    · rw [if_neg hl] at h
      cases h
      refine ⟨by simpa [List.isEmpty_iff] using hl, ?_, ?_⟩
      · intro l' hl'
        cases hl'
        rfl
      · intro d hd
        cases hd
  | mapping d =>
    simp only [unmarshalRawDistConfigs] at h
    cases h
    refine ⟨by simp, ?_, ?_⟩
    · intro l' hl'
      cases hl'
    · intro d' hd'
      cases hd'
      rfl
  | invalid msg =>
    simp only [unmarshalRawDistConfigs] at h
    cases h

/-- Witness for C9 at a concrete single-dist mapping. -/
theorem unmarshalRawDistConfigs_ok_nonEmpty_witness :
    ([7] : List Nat) ≠ [] ∧
    (∀ l, (RawDistYaml.mapping 7 : RawDistYaml Nat) = .seqOf l → [7] = l) ∧
    (∀ d, (RawDistYaml.mapping 7 : RawDistYaml Nat) = .mapping d → [7] = [d]) :=
  unmarshalRawDistConfigs_ok_nonEmpty (RawDistYaml.mapping 7) [7] rfl

/- ### C1: the built-in exclude upgrader -/

/-- Claim C1 (code bug): evaluating the exclude merge at a legacy file whose
`paths` list holds the single new entry `build` and a current descriptor
whose `names` list is `n` and whose `paths` list is empty. The merge is
claimed to append `build` to the paths list and leave other entries alone;
the code instead stores `build` in the names list (overwriting the names
list with the paths list plus the new entry) and leaves the paths list
unchanged. -/
theorem mergeExcludeCfg_misfiles_paths :
    mergeExcludeCfg { Names := [], Paths := ["build"] }
        { Exclude := { Names := ["n"], Paths := [] } } =
      ({ Exclude := { Names := ["build"], Paths := [] } }, true) ∧
    ("build" ∉
      (mergeExcludeCfg { Names := [], Paths := ["build"] }
        { Exclude := { Names := ["n"], Paths := [] } }).1.Exclude.Paths) := by
  constructor
  · rfl
  · decide

/- ### C10: checksum matching -/

lemma nonEmptyEqual_comm (s t : String) : nonEmptyEqual s t = nonEmptyEqual t s := by
  unfold nonEmptyEqual
  rw [decide_eq_decide]
  constructor <;> rintro ⟨h1, h2, h3⟩ <;> exact ⟨h2, h1, h3.symm⟩

lemma nonEmptyDiffer_comm (s t : String) : nonEmptyDiffer s t = nonEmptyDiffer t s := by
  unfold nonEmptyDiffer
  rw [decide_eq_decide]
  constructor <;> rintro ⟨h1, h2, h3⟩ <;> exact ⟨h2, h1, h3.symm⟩

/-- Claim C10: checksum matching is symmetric, and it is true exactly when at
least one of the MD5/SHA1/SHA256 pairs is non-empty on both sides and equal
while no pair is non-empty on both sides and different. -/
theorem checksums_match_symm_and_characterization (a b : Checksums) :
    a.match' b = b.match' a ∧
    (a.match' b = true ↔
      ((a.MD5 ≠ "" ∧ b.MD5 ≠ "" ∧ a.MD5 = b.MD5) ∨
        (a.SHA1 ≠ "" ∧ b.SHA1 ≠ "" ∧ a.SHA1 = b.SHA1) ∨
        (a.SHA256 ≠ "" ∧ b.SHA256 ≠ "" ∧ a.SHA256 = b.SHA256)) ∧
      ¬((a.MD5 ≠ "" ∧ b.MD5 ≠ "" ∧ a.MD5 ≠ b.MD5) ∨
        (a.SHA1 ≠ "" ∧ b.SHA1 ≠ "" ∧ a.SHA1 ≠ b.SHA1) ∨
        (a.SHA256 ≠ "" ∧ b.SHA256 ≠ "" ∧ a.SHA256 ≠ b.SHA256))) := by
  constructor
  · unfold Checksums.match'
    rw [nonEmptyEqual_comm a.MD5, nonEmptyEqual_comm a.SHA1, nonEmptyEqual_comm a.SHA256,
      nonEmptyDiffer_comm a.MD5, nonEmptyDiffer_comm a.SHA1, nonEmptyDiffer_comm a.SHA256]
  · unfold Checksums.match'
    cases hq : (nonEmptyEqual a.MD5 b.MD5 || nonEmptyEqual a.SHA1 b.SHA1 ||
        nonEmptyEqual a.SHA256 b.SHA256) <;>
      cases hd : (nonEmptyDiffer a.MD5 b.MD5 || nonEmptyDiffer a.SHA1 b.SHA1 ||
        nonEmptyDiffer a.SHA256 b.SHA256) <;>
      simp_all [nonEmptyEqual, nonEmptyDiffer, Bool.or_eq_true, decide_eq_true_eq, or_assoc]

/- ### Filesystem model lemmas -/

lemma fsExists_eq_isSome (fs : FileSys) (n : String) :
    fsExists fs n = (fsRead fs n).isSome := by
  unfold fsExists fsRead
  cases fs.find? (fun p => p.1 = n) <;> rfl

lemma fsRead_cons (hd : String × String) (tl : FileSys) (g : String) :
    fsRead (hd :: tl) g = if hd.1 = g then some hd.2 else fsRead tl g := by
  unfold fsRead
  by_cases h : hd.1 = g
  · rw [List.find?_cons_of_pos _ (by simpa using h), if_pos h]
    rfl
  · rw [List.find?_cons_of_neg _ (by simpa using h), if_neg h]

lemma fsRead_remove_ne (fs : FileSys) {g n : String} (h : g ≠ n) :
    fsRead (fsRemove fs n) g = fsRead fs g := by
  induction fs with
  | nil => rfl
  | cons hd tl ih =>
    by_cases h1 : hd.1 = n
    · have hrm : fsRemove (hd :: tl) n = fsRemove tl n := by
        simp [fsRemove, h1]
      have h2 : ¬ (hd.1 = g) := by
        rw [h1]
        exact fun hh => h hh.symm
      rw [hrm, ih, fsRead_cons, if_neg h2]
    · have hrm : fsRemove (hd :: tl) n = hd :: fsRemove tl n := by
        simp [fsRemove, h1]
      rw [hrm, fsRead_cons, fsRead_cons, ih]

lemma fsRead_remove_self (fs : FileSys) (n : String) :
    fsRead (fsRemove fs n) n = none := by
  unfold fsRead fsRemove
  rw [List.find?_eq_none.mpr]
  · rfl
  · intro p hp
    simp only [List.mem_filter] at hp
    simpa using hp.2

lemma fsRead_write_ne (fs : FileSys) {g n : String} (c : String) (h : g ≠ n) :
    fsRead (fsWrite fs n c) g = fsRead fs g := by
  unfold fsWrite
  split_ifs with he
  · clear he
    induction fs with
    | nil => rfl
    | cons hd tl ih =>
      rw [List.map_cons]
      by_cases h1 : hd.1 = n
      · rw [if_pos h1, fsRead_cons, fsRead_cons]
        have h2 : ¬ ((n, c).1 = g) := fun hh => h hh.symm
        have h3 : ¬ (hd.1 = g) := by rw [h1]; exact fun hh => h hh.symm
        rw [if_neg h2, if_neg h3, ih]
      · rw [if_neg h1, fsRead_cons, fsRead_cons, ih]
  · unfold fsRead
    rw [List.find?_append]
    have hnone : List.find? (fun p => p.1 = g) [(n, c)] = none := by
      rw [List.find?_cons_of_neg _ (by simpa using fun hh => h hh.symm)]
      rfl
    rw [hnone]
    cases List.find? (fun p => p.1 = g) fs <;> rfl

lemma fsRead_write_self (fs : FileSys) (n c : String) :
    fsRead (fsWrite fs n c) n = some c := by
  unfold fsWrite
  split_ifs with he
  · rw [fsExists_eq_isSome] at he
    induction fs with
    | nil => cases he
    | cons hd tl ih =>
      rw [List.map_cons]
      by_cases h1 : hd.1 = n
      · rw [if_pos h1, fsRead_cons, if_pos rfl]
      · rw [if_neg h1, fsRead_cons, if_neg h1]
        rw [fsRead_cons, if_neg h1] at he
        exact ih he
  · unfold fsRead
    rw [List.find?_append]
    have hfs : List.find? (fun p => p.1 = n) fs = none := by
      rw [fsExists_eq_isSome] at he
      unfold fsRead at he
      cases hv : List.find? (fun p => p.1 = n) fs
      · rfl
      · rw [hv] at he
        cases he rfl
    rw [hfs, List.find?_cons_of_pos _ (by simp)]
    rfl

lemma mem_of_fsExists {fs : FileSys} {g : String} (h : fsExists fs g = true) :
    ∃ p, p ∈ fs ∧ p.1 = g := by
  unfold fsExists at h
  cases hv : fs.find? (fun p => p.1 = g) with
  | none => rw [hv] at h; cases h
  | some p =>
    refine ⟨p, List.mem_of_find?_eq_some hv, ?_⟩
    have := List.find?_some hv
    simpa using this

lemma foldl_name_append_length (l : FileSys) (init : String) :
    (l.foldl (fun acc p => acc ++ p.1) init).length =
      init.length + (l.map (fun p => p.1.length)).sum := by
  induction l generalizing init with
  | nil => simp
  | cons hd tl ih =>
    rw [List.foldl_cons, ih, List.map_cons, List.sum_cons, String.length_append]
    omega

lemma backupName_length (fs : FileSys) (name : String) :
    (backupName fs name).length =
      name.length + 10 + (fs.map (fun p => p.1.length)).sum := by
  unfold backupName
  rw [String.length_append, foldl_name_append_length, String.length_append]
  have h5 : (".back" : String).length = 5 := by decide
  rw [h5]
  omega

lemma backupName_ne_of_mem {fs : FileSys} {p : String × String} (hp : p ∈ fs)
    (name : String) : p.1 ≠ backupName fs name := by
  intro hh
  have hlen : p.1.length ≤ (fs.map (fun p => p.1.length)).sum :=
    List.single_le_sum (fun x _ => Nat.zero_le x) _ (List.mem_map_of_mem _ hp)
  have := congrArg String.length hh
  rw [backupName_length] at this
  omega

lemma fsExists_backupName (fs : FileSys) (name : String) :
    fsExists fs (backupName fs name) = false := by
  unfold fsExists
  rw [List.find?_eq_none.mpr]
  · rfl
  · intro p hp
    simpa using backupName_ne_of_mem hp name

lemma goHasSuffix_append (s t : String) : goHasSuffix (s ++ t) t = true := by
  unfold goHasSuffix
  rw [decide_eq_true_eq, String.data_append]
  exact List.suffix_append _ _

lemma backupName_hasSuffix_back (fs : FileSys) (name : String) :
    goHasSuffix (backupName fs name) ".back" = true := by
  unfold backupName
  exact goHasSuffix_append _ _

lemma ne_of_suffix_back_yml {s t : String} (hs : goHasSuffix s ".back" = true)
    (ht : goHasSuffix t ".yml" = true) : s ≠ t := by
  intro hh
  subst hh
  unfold goHasSuffix at hs ht
  rw [decide_eq_true_eq] at hs ht
  rcases List.suffix_or_suffix_of_suffix hs ht with h | h
  · have : (".back" : String).data <:+ (".yml" : String).data → False := by decide
    exact this h
  · have : (".yml" : String).data <:+ (".back" : String).data → False := by decide
    exact this h

lemma backupConfigFile_dryRun (st : RunState) (name : String) :
    backupConfigFile st name true = st := by
  unfold backupConfigFile
  split_ifs with h1 h2
  · rfl
  · exact absurd rfl h2
  · rfl

lemma backupConfigFile_neg {st : RunState} {name : String} (d : Bool)
    (he : fsExists st.fs name = false) : backupConfigFile st name d = st := by
  unfold backupConfigFile
  rw [if_neg (by rw [he]; exact Bool.false_ne_true)]

lemma backupConfigFile_pos {st : RunState} {name : String}
    (he : fsExists st.fs name = true) :
    backupConfigFile st name false =
      { fs := fsWrite (fsRemove st.fs name) (backupName st.fs name)
          ((fsRead st.fs name).getD ""),
        writes := st.writes ++ [backupName st.fs name] } := by
  unfold backupConfigFile
  rw [if_pos he]
  rfl

lemma fsRead_backup_other {st : RunState} {g name : String}
    (hg : fsExists st.fs g = true) (hne : g ≠ name) (d : Bool) :
    fsRead (backupConfigFile st name d).fs g = fsRead st.fs g := by
  cases d
  · by_cases he : fsExists st.fs name = true
    · rw [backupConfigFile_pos he]
      obtain ⟨p, hp, hpg⟩ := mem_of_fsExists hg
      have hgd : g ≠ backupName st.fs name := by
        have := backupName_ne_of_mem hp name
        rw [hpg] at this
        exact this
      rw [fsRead_write_ne _ _ hgd, fsRead_remove_ne _ hne]
    · rw [backupConfigFile_neg _ (Bool.not_eq_true _ |>.mp he)]
  · rw [backupConfigFile_dryRun]

lemma fsExists_backup_self (st : RunState) (name : String) :
    fsExists (backupConfigFile st name false).fs name = false := by
  by_cases he : fsExists st.fs name = true
  · rw [backupConfigFile_pos he]
    obtain ⟨p, hp, hpn⟩ := mem_of_fsExists he
    have hnd : name ≠ backupName st.fs name := by
      have := backupName_ne_of_mem hp name
      rw [hpn] at this
      exact this
    rw [fsExists_eq_isSome, fsRead_write_ne _ _ hnd, fsRead_remove_self]
    rfl
  · have he2 := Bool.not_eq_true _ |>.mp he
    rw [backupConfigFile_neg _ he2]
    exact he2

lemma backup_preserves_not_exists {st : RunState} {f : String}
    (hf : goHasSuffix f ".yml" = true) (h : fsExists st.fs f = false)
    (g : String) (d : Bool) :
    fsExists (backupConfigFile st g d).fs f = false := by
  cases d
  · by_cases he : fsExists st.fs g = true
    · rw [backupConfigFile_pos he]
      have hfd : f ≠ backupName st.fs g :=
        fun hh => ne_of_suffix_back_yml (backupName_hasSuffix_back st.fs g) hf hh.symm
      rw [fsExists_eq_isSome, fsRead_write_ne _ _ hfd]
      by_cases hfg : f = g
      · rw [hfg, fsRead_remove_self]
        rfl
      · rw [fsRead_remove_ne _ hfg, ← fsExists_eq_isSome]
        exact h
    · rw [backupConfigFile_neg _ (Bool.not_eq_true _ |>.mp he)]
      exact h
  · rw [backupConfigFile_dryRun]
    exact h

/- ### C5: dry-run purity -/

lemma pluginStep_none (codec : YamlCodec) (d : Bool)
    (lookup : String → Option UpgradeConfigTask) (acc : PluginLoopAcc) (k : String)
    (hl : lookup k = none) : pluginStep codec d lookup acc k = acc := by
  unfold pluginStep
  rw [hl]

lemma pluginStep_some (codec : YamlCodec) (d : Bool)
    (lookup : String → Option UpgradeConfigTask) (acc : PluginLoopAcc) (k : String)
    (t : UpgradeConfigTask) (hl : lookup k = some t) :
    pluginStep codec d lookup acc k =
      { state := (upgradeLegacyConfig codec t acc.state d).1,
        known := insert t.LegacyConfigFile acc.known,
        failed := acc.failed ++
          (match (upgradeLegacyConfig codec t acc.state d).2 with
            | some e => [upgradeError t.ConfigFile e]
            | none => []),
        processed := acc.processed ++ [k] } := by
  unfold pluginStep
  rw [hl]
  dsimp only
  rcases upgradeLegacyConfig codec t acc.state d with ⟨st', err⟩
  cases err <;> simp

lemma excludeUpgradeConfig_dryRun (codec : YamlCodec) (st : RunState) :
    (excludeUpgradeConfig codec st true).1 = st := by
  by_cases he : fsExists st.fs "exclude.yml" = true
  · simp only [excludeUpgradeConfig, if_pos he]
    split
    · rfl
    · split
      · rfl
      · rw [backupConfigFile_dryRun]
        split_ifs <;> simp_all
  · simp only [excludeUpgradeConfig, if_neg he]

lemma upgradeLegacyConfig_dryRun (codec : YamlCodec) (upgradeTask : UpgradeConfigTask)
    (st : RunState) : (upgradeLegacyConfig codec upgradeTask st true).1 = st := by
  by_cases he : fsExists st.fs upgradeTask.LegacyConfigFile = true
  · simp only [upgradeLegacyConfig, if_pos he]
    split
    · rfl
    · split
      · rfl
      · rw [backupConfigFile_dryRun, backupConfigFile_dryRun]
        split_ifs <;> simp_all
  · simp only [upgradeLegacyConfig, if_neg he]

lemma unhandledStep_dryRun (acc : RunState × List String) (f : String) :
    (unhandledStep true acc f).1 = acc.1 := by
  simp only [unhandledStep]
  split_ifs
  · simp [backupConfigFile_dryRun]
  · rfl

lemma processUnhandled_foldl_dryRun (u : List String) :
    ∀ acc : RunState × List String, (u.foldl (unhandledStep true) acc).1 = acc.1 := by
  induction u with
  | nil => intro acc; rfl
  | cons f fs ih =>
    intro acc
    rw [List.foldl_cons, ih, unhandledStep_dryRun]

lemma processUnhandledYMLFiles_dryRun (st : RunState) (u : List String) :
    (processUnhandledYMLFiles st u true).1 = st :=
  processUnhandled_foldl_dryRun u (st, [])

lemma pluginStep_dryRun_state (codec : YamlCodec)
    (lookup : String → Option UpgradeConfigTask) (acc : PluginLoopAcc) (k : String) :
    (pluginStep codec true lookup acc k).state = acc.state := by
  cases hl : lookup k with
  | none => rw [pluginStep_none _ _ _ _ _ hl]
  | some t =>
    rw [pluginStep_some _ _ _ _ _ _ hl]
    simpa using upgradeLegacyConfig_dryRun codec t acc.state

lemma pluginFold_dryRun_state (codec : YamlCodec)
    (lookup : String → Option UpgradeConfigTask) (ids : List String) :
    ∀ acc : PluginLoopAcc,
      (ids.foldl (pluginStep codec true lookup) acc).state = acc.state := by
  induction ids with
  | nil => intro acc; rfl
  | cons k ks ih =>
    intro acc
    rw [List.foldl_cons, ih, pluginStep_dryRun_state]

lemma pluginStep_processed (codec : YamlCodec) (d : Bool)
    (lookup : String → Option UpgradeConfigTask) (acc : PluginLoopAcc) (k : String) :
    (pluginStep codec d lookup acc k).processed =
      acc.processed ++ (if (lookup k).isSome then [k] else []) := by
  cases hl : lookup k with
  | none => rw [pluginStep_none _ _ _ _ _ hl]; simp
  | some t => rw [pluginStep_some _ _ _ _ _ _ hl]; simp

lemma pluginFold_processed (codec : YamlCodec)
    (lookup : String → Option UpgradeConfigTask) (ids : List String) :
    ∀ (d1 d2 : Bool) (acc1 acc2 : PluginLoopAcc),
      acc1.processed = acc2.processed →
      (ids.foldl (pluginStep codec d1 lookup) acc1).processed =
        (ids.foldl (pluginStep codec d2 lookup) acc2).processed := by
  induction ids with
  | nil => intro d1 d2 a1 a2 h; exact h
  | cons k ks ih =>
    intro d1 d2 a1 a2 h
    rw [List.foldl_cons, List.foldl_cons]
    apply ih
    rw [pluginStep_processed, pluginStep_processed, h]

/-- Claim C5: running the migration with dry-run enabled performs no
filesystem mutation — the resulting directory is exactly the initial one and
the run wrote no file — while the plugin upgrade loop still executes over the
same tasks, in the same order, as in a real run. -/
theorem dryRun_purity (codec : YamlCodec) (upgradeTasks : List UpgradeConfigTask)
    (fs0 : FileSys) :
    (upgradeLegacyConfigRun codec upgradeTasks fs0 true).state.fs = fs0 ∧
    (upgradeLegacyConfigRun codec upgradeTasks fs0 true).state.writes = [] ∧
    (upgradeLegacyConfigRun codec upgradeTasks fs0 true).processed =
      (upgradeLegacyConfigRun codec upgradeTasks fs0 false).processed := by
  refine ⟨?_, ?_, ?_⟩
  · simp only [upgradeLegacyConfigRun, processUnhandledYMLFiles_dryRun,
      pluginFold_dryRun_state, excludeUpgradeConfig_dryRun]
  · simp only [upgradeLegacyConfigRun, processUnhandledYMLFiles_dryRun,
      pluginFold_dryRun_state, excludeUpgradeConfig_dryRun]
  · simp only [upgradeLegacyConfigRun]
    exact pluginFold_processed codec _ _ true false _ _ rfl

/- ### C6: unhandled YAML files -/

lemma unhandledStep_empty (d : Bool) (acc : RunState × List String) (f : String)
    (h : (fsRead acc.1.fs f).getD "" = "") :
    unhandledStep d acc f = (backupConfigFile acc.1 f d, acc.2) := by
  simp only [unhandledStep]
  rw [if_pos h]

lemma unhandledStep_nonempty (d : Bool) (acc : RunState × List String) (f : String)
    (h : ¬ (fsRead acc.1.fs f).getD "" = "") :
    unhandledStep d acc f = (acc.1, acc.2 ++ [f]) := by
  simp only [unhandledStep]
  rw [if_neg h]

lemma unhandled_fold_preserves_not_exists (u : List String) :
    ∀ (st : RunState) (ws : List String) (f : String),
      goHasSuffix f ".yml" = true → fsExists st.fs f = false →
      fsExists ((u.foldl (unhandledStep false) (st, ws)).1.fs) f = false := by
  induction u with
  | nil => intro st ws f _ h; exact h
  | cons g rest ih =>
    intro st ws f hyml h
    rw [List.foldl_cons]
    by_cases hb : (fsRead st.fs g).getD "" = ""
    · rw [unhandledStep_empty false (st, ws) g hb]
      exact ih _ _ _ hyml (backup_preserves_not_exists hyml h g false)
    · rw [unhandledStep_nonempty false (st, ws) g hb]
      exact ih _ _ _ hyml h

lemma unhandled_fold_spec (u : List String) :
    ∀ (st : RunState) (ws : List String),
      u.Nodup → (∀ f ∈ u, fsExists st.fs f = true) →
      (∀ f ∈ u, goHasSuffix f ".yml" = true) →
      (u.foldl (unhandledStep false) (st, ws)).2 =
        ws ++ u.filter (fun f => ¬((fsRead st.fs f).getD "" = "")) ∧
      ∀ f ∈ u, (fsRead st.fs f).getD "" = "" →
        fsExists ((u.foldl (unhandledStep false) (st, ws)).1.fs) f = false := by
  induction u with
  | nil => intro st ws _ _ _; exact ⟨by simp, by simp⟩
  | cons f rest ih =>
    intro st ws hnd hex hyml
    have hndr : rest.Nodup := (List.nodup_cons.mp hnd).2
    have hfnr : f ∉ rest := (List.nodup_cons.mp hnd).1
    rw [List.foldl_cons]
    by_cases hb : (fsRead st.fs f).getD "" = ""
    · rw [unhandledStep_empty false (st, ws) f hb]
      have hst' : ∀ g ∈ rest, fsRead (backupConfigFile st f false).fs g = fsRead st.fs g := by
        intro g hg
        exact fsRead_backup_other (hex g (List.mem_cons_of_mem f hg))
          (fun hh => hfnr (by rw [hh] at hg; exact hg)) false
      have hex' : ∀ g ∈ rest, fsExists (backupConfigFile st f false).fs g = true := by
        intro g hg
        rw [fsExists_eq_isSome, hst' g hg, ← fsExists_eq_isSome]
        exact hex g (List.mem_cons_of_mem f hg)
      have hyml' : ∀ g ∈ rest, goHasSuffix g ".yml" = true :=
        fun g hg => hyml g (List.mem_cons_of_mem f hg)
      obtain ⟨ih1, ih2⟩ := ih (backupConfigFile st f false) ws hndr hex' hyml'
      constructor
      · rw [ih1]
        have hfil : rest.filter
              (fun g => ¬((fsRead (backupConfigFile st f false).fs g).getD "" = "")) =
            rest.filter (fun g => ¬((fsRead st.fs g).getD "" = "")) := by
          apply List.filter_congr
          intro g hg
          rw [hst' g hg]
        rw [hfil, List.filter_cons_of_neg]
        simpa using hb
      · intro g hg hge
        rcases List.mem_cons.mp hg with hgf | hgr
        · subst hgf
          exact unhandled_fold_preserves_not_exists rest _ ws g (hyml g hg)
            (fsExists_backup_self st g)
        · exact ih2 g hgr (by rw [hst' g hgr]; exact hge)
    · rw [unhandledStep_nonempty false (st, ws) f hb]
      have hex' : ∀ g ∈ rest, fsExists st.fs g = true :=
        fun g hg => hex g (List.mem_cons_of_mem f hg)
      have hyml' : ∀ g ∈ rest, goHasSuffix g ".yml" = true :=
        fun g hg => hyml g (List.mem_cons_of_mem f hg)
      obtain ⟨ih1, ih2⟩ := ih st (ws ++ [f]) hndr hex' hyml'
      constructor
      · rw [ih1, List.filter_cons_of_pos]
        · simp
        · simpa using hb
      · intro g hg hge
        rcases List.mem_cons.mp hg with hgf | hgr
        · subst hgf
          exact absurd hge hb
        · exact ih2 g hgr hge

/-- Claim C6: for the unhandled YAML files (present at the start, claimed by
no upgrader, hence all existing, distinct, `.yml`-suffixed): the single
combined warning names exactly the non-empty ones, every empty one is backed
up (it no longer exists at its original path afterwards), and the run returns
a failure exactly when some upgrade failed — unhandled-file processing never
fails the run. -/
theorem processUnhandled_behavior (st : RunState) (unknown : List String)
    (hnd : unknown.Nodup)
    (hex : ∀ f ∈ unknown, fsExists st.fs f = true)
    (hyml : ∀ f ∈ unknown, goHasSuffix f ".yml" = true) :
    (processUnhandledYMLFiles st unknown false).2 =
      unknown.filter (fun f => ¬((fsRead st.fs f).getD "" = "")) ∧
    (∀ f ∈ unknown, (fsRead st.fs f).getD "" = "" →
      fsExists (processUnhandledYMLFiles st unknown false).1.fs f = false) ∧
    (∀ (codec : YamlCodec) (tasks : List UpgradeConfigTask) (fs0 : FileSys) (d : Bool),
      (upgradeLegacyConfigRun codec tasks fs0 d).failed = true ↔
        (upgradeLegacyConfigRun codec tasks fs0 d).failedUpgrades ≠ []) := by
  obtain ⟨h1, h2⟩ := unhandled_fold_spec unknown st [] hnd hex hyml
  refine ⟨by simpa using h1, h2, ?_⟩
  intro codec tasks fs0 d
  simp only [upgradeLegacyConfigRun, decide_eq_true_eq]


/-- Witness for C6 at a concrete directory with one empty and one non-empty
unhandled file. -/
theorem processUnhandled_behavior_witness :
    (processUnhandledYMLFiles c6State ["a.yml", "b.yml"] false).2 =
      (["a.yml", "b.yml"]).filter
        (fun f => ¬((fsRead c6State.fs f).getD "" = "")) ∧
    (∀ f ∈ ["a.yml", "b.yml"], (fsRead c6State.fs f).getD "" = "" →
      fsExists (processUnhandledYMLFiles c6State ["a.yml", "b.yml"] false).1.fs f
        = false) ∧
    (∀ (codec : YamlCodec) (tasks : List UpgradeConfigTask) (fs0 : FileSys) (d : Bool),
      (upgradeLegacyConfigRun codec tasks fs0 d).failed = true ↔
        (upgradeLegacyConfigRun codec tasks fs0 d).failedUpgrades ≠ []) :=
  processUnhandled_behavior c6State ["a.yml", "b.yml"] (by decide) (by decide)
    (by decide)

/- ### C4: determinism of the migration run -/

lemma charListLe_total : ∀ as bs : List Char, charListLe as bs = true ∨ charListLe bs as = true
  | [], _ => Or.inl rfl
  | _ :: _, [] => Or.inr rfl
  | a :: as, b :: bs => by
    by_cases hab : a < b
    · left
      simp [charListLe, hab]
    · by_cases hba : b < a
      · right
        simp [charListLe, hba]
      · have heq : a = b := le_antisymm (not_lt.mp hba) (not_lt.mp hab)
        subst heq
        rcases charListLe_total as bs with h | h
        · left
          simpa [charListLe] using h
        · right
          simpa [charListLe] using h

lemma charListLe_trans : ∀ as bs cs : List Char,
    charListLe as bs = true → charListLe bs cs = true → charListLe as cs = true
  | [], _, _, _, _ => rfl
  | a :: as, [], cs, h1, _ => by cases h1
  | a :: as, b :: bs, [], _, h2 => by cases h2
  | a :: as, b :: bs, c :: cs, h1, h2 => by
    simp only [charListLe] at h1 h2 ⊢
    by_cases hab : a < b
    · by_cases hbc : b < c
      · simp [lt_trans hab hbc]
      · by_cases hcb : c < b
        · rw [if_neg hbc, if_pos hcb] at h2
          cases h2
        · have : b = c := le_antisymm (not_lt.mp hcb) (not_lt.mp hbc)
          subst this
          simp [hab]
    · by_cases hba : b < a
      · rw [if_neg hab, if_pos hba] at h1
        cases h1
      · have : a = b := le_antisymm (not_lt.mp hba) (not_lt.mp hab)
        subst this
        rw [if_neg hab, if_neg hba] at h1
        by_cases hbc : a < c
        · simp [hbc]
        · by_cases hcb : c < a
          · rw [if_neg hbc, if_pos hcb] at h2
            cases h2
          · rw [if_neg hbc, if_neg hcb] at h2 ⊢
            exact charListLe_trans as bs cs h1 h2

lemma charListLe_antisymm : ∀ as bs : List Char,
    charListLe as bs = true → charListLe bs as = true → as = bs
  | [], [], _, _ => rfl
  | [], _ :: _, _, h2 => by cases h2
  | _ :: _, [], h1, _ => by cases h1
  | a :: as, b :: bs, h1, h2 => by
    simp only [charListLe] at h1 h2
    by_cases hab : a < b
    · rw [if_neg (lt_asymm hab), if_pos hab] at h2
      cases h2
    · by_cases hba : b < a
      · rw [if_neg hab, if_pos hba] at h1
        cases h1
      · have heq : a = b := le_antisymm (not_lt.mp hba) (not_lt.mp hab)
        subst heq
        rw [if_neg hab, if_neg hab] at h1 h2
        rw [charListLe_antisymm as bs h1 h2]

instance : IsTotal String (fun a b => strLe a b = true) :=
  ⟨fun a b => charListLe_total a.data b.data⟩

instance : IsTrans String (fun a b => strLe a b = true) :=
  ⟨fun a b c => charListLe_trans a.data b.data c.data⟩

instance : IsAntisymm String (fun a b => strLe a b = true) :=
  ⟨fun a b h1 h2 => String.ext (charListLe_antisymm a.data b.data h1 h2)⟩

lemma sortStrings_perm_eq {l1 l2 : List String} (p : l1.Perm l2) :
    sortStrings l1 = sortStrings l2 := by
  unfold sortStrings
  exact List.eq_of_perm_of_sorted
    ((List.perm_insertionSort _ l1).trans (p.trans (List.perm_insertionSort _ l2).symm))
    (List.sorted_insertionSort _ l1) (List.sorted_insertionSort _ l2)

lemma taskLookup_foldl_none_iff (id : String) (l : List UpgradeConfigTask) :
    ∀ acc : Option UpgradeConfigTask,
      l.foldl (fun acc t => if t.ID = id then some t else acc) acc = none ↔
        acc = none ∧ ∀ t ∈ l, t.ID ≠ id := by
  induction l with
  | nil => intro acc; simp
  | cons u us ih =>
    intro acc
    rw [List.foldl_cons]
    by_cases hu : u.ID = id
    · rw [if_pos hu, ih]
      simp [hu]
    · rw [if_neg hu, ih]
      simp only [List.mem_cons]
      constructor
      · rintro ⟨ha, hall⟩
        refine ⟨ha, ?_⟩
        rintro t (rfl | ht)
        · exact hu
        · exact hall t ht
      · rintro ⟨ha, hall⟩
        exact ⟨ha, fun t ht => hall t (Or.inr ht)⟩

lemma taskLookup_foldl_some (id : String) (l : List UpgradeConfigTask) :
    ∀ (acc : Option UpgradeConfigTask) (t : UpgradeConfigTask),
      l.foldl (fun acc t => if t.ID = id then some t else acc) acc = some t →
        (t ∈ l ∧ t.ID = id) ∨ acc = some t := by
  induction l with
  | nil => intro acc t h; exact Or.inr h
  | cons u us ih =>
    intro acc t h
    rw [List.foldl_cons] at h
    rcases ih _ t h with ⟨hm, hid⟩ | hacc
    · exact Or.inl ⟨List.mem_cons_of_mem u hm, hid⟩
    · by_cases hu : u.ID = id
      · rw [if_pos hu] at hacc
        cases hacc
        exact Or.inl ⟨List.mem_cons_self u us, hu⟩
      · rw [if_neg hu] at hacc
        exact Or.inr hacc

lemma taskLookup_foldl_stable (id : String) (l : List UpgradeConfigTask)
    (hall : ∀ t ∈ l, t.ID ≠ id) :
    ∀ acc : Option UpgradeConfigTask,
      l.foldl (fun acc t => if t.ID = id then some t else acc) acc = acc := by
  induction l with
  | nil => intro acc; rfl
  | cons u us ih =>
    intro acc
    rw [List.foldl_cons, if_neg (hall u (List.mem_cons_self u us))]
    exact ih (fun t ht => hall t (List.mem_cons_of_mem u ht)) acc

lemma taskLookup_of_mem {l : List UpgradeConfigTask} {id : String}
    {t : UpgradeConfigTask} (hnd : (l.map (fun t => t.ID)).Nodup) (ht : t ∈ l)
    (hid : t.ID = id) : taskLookup l id = some t := by
  induction l with
  | nil => cases ht
  | cons u us ih =>
    rw [List.map_cons, List.nodup_cons] at hnd
    unfold taskLookup
    rw [List.foldl_cons]
    rcases List.mem_cons.mp ht with rfl | htu
    · rw [if_pos hid]
      apply taskLookup_foldl_stable
      intro v hv hvid
      apply hnd.1
      rw [hid, ← hvid]
      exact List.mem_map_of_mem _ hv
    · have hu : ¬ (u.ID = id) := by
        intro huid
        apply hnd.1
        rw [huid, ← hid]
        exact List.mem_map_of_mem _ htu
      rw [if_neg hu]
      exact ih hnd.2 htu

lemma taskLookup_perm {tasks1 tasks2 : List UpgradeConfigTask}
    (p : tasks1.Perm tasks2) (hnd : (tasks1.map (fun t => t.ID)).Nodup)
    (id : String) : taskLookup tasks1 id = taskLookup tasks2 id := by
  have hnd2 : (tasks2.map (fun t => t.ID)).Nodup := (p.map _).nodup hnd
  cases hv : taskLookup tasks1 id with
  | none =>
    rw [taskLookup] at hv
    obtain ⟨-, hall⟩ := (taskLookup_foldl_none_iff id tasks1 none).mp hv
    rw [taskLookup]
    exact ((taskLookup_foldl_none_iff id tasks2 none).mpr
      ⟨rfl, fun t ht => hall t (p.symm.subset ht)⟩).symm
  | some t =>
    rw [taskLookup] at hv
    rcases taskLookup_foldl_some id tasks1 none t hv with ⟨hm, hid⟩ | habs
    · exact (taskLookup_of_mem hnd2 (p.subset hm) hid).symm
    · cases habs

lemma knownAfterTasks_perm {tasks1 tasks2 : List UpgradeConfigTask}
    (p : tasks1.Perm tasks2) (init : Finset String) :
    knownAfterTasks tasks1 init = knownAfterTasks tasks2 init := by
  unfold knownAfterTasks
  haveI : RightCommutative
      (fun (s : Finset String) (t : UpgradeConfigTask) => insert t.ConfigFile s) :=
    ⟨fun b a1 a2 => Finset.Insert.comm _ _ _⟩
  exact p.foldl_eq init

lemma pendingIDs_perm {tasks1 tasks2 : List UpgradeConfigTask}
    (p : tasks1.Perm tasks2) : pendingIDs tasks1 = pendingIDs tasks2 := by
  unfold pendingIDs
  exact sortStrings_perm_eq ((p.filter _).map _)

lemma pluginFold_processed_eq (codec : YamlCodec) (d : Bool)
    (lookup : String → Option UpgradeConfigTask) (ids : List String) :
    ∀ acc : PluginLoopAcc,
      (ids.foldl (pluginStep codec d lookup) acc).processed =
        acc.processed ++ ids.filter (fun k => (lookup k).isSome) := by
  induction ids with
  | nil => intro acc; simp
  | cons k ks ih =>
    intro acc
    rw [List.foldl_cons, ih, pluginStep_processed]
    by_cases hk : (lookup k).isSome = true
    · rw [if_pos hk, List.filter_cons_of_pos (by simpa using hk)]
      simp
    · rw [if_neg hk, List.filter_cons_of_neg (by simpa using hk)]
      simp

/-- Claim C4 (amended): provided the task IDs are pairwise distinct, two
migration runs over the same set of upgrade tasks supplied in different
orders produce identical results — the same `knownConfigFiles` set, the same
run state, the same applied upgrades, and the same ordered failure list —
and the plugin-declared legacy upgrades are processed in lexicographic order
of their IDs. -/
theorem upgradeLegacyConfigRun_deterministic (codec : YamlCodec)
    (tasks1 tasks2 : List UpgradeConfigTask) (fs0 : FileSys) (d : Bool)
    (hperm : tasks1.Perm tasks2)
    (hnd : (tasks1.map (fun t => t.ID)).Nodup) :
    upgradeLegacyConfigRun codec tasks1 fs0 d =
      upgradeLegacyConfigRun codec tasks2 fs0 d ∧
    List.Sorted (fun a b => strLe a b = true)
      (upgradeLegacyConfigRun codec tasks1 fs0 d).processed := by
  have hl : taskLookup tasks1 = taskLookup tasks2 := funext (taskLookup_perm hperm hnd)
  have hp : pendingIDs tasks1 = pendingIDs tasks2 := pendingIDs_perm hperm
  have hk : knownAfterTasks tasks1 ({"exclude.yml"} : Finset String) =
      knownAfterTasks tasks2 ({"exclude.yml"} : Finset String) :=
    knownAfterTasks_perm hperm _
  constructor
  · simp only [upgradeLegacyConfigRun]
    rw [hl, hp, hk]
  · have hpr : (upgradeLegacyConfigRun codec tasks1 fs0 d).processed =
        (pendingIDs tasks1).filter (fun k => (taskLookup tasks1 k).isSome) := by
      simp only [upgradeLegacyConfigRun]
      rw [pluginFold_processed_eq]
      simp
    rw [hpr]
    exact (List.sorted_insertionSort _ _).sublist (List.filter_sublist _)


/-- Claim C4 counterexample: the same set of two upgrade tasks that share an
ID, supplied in the two orders, yields different `knownConfigFiles` sets —
the last-registered task wins the task map, so its legacy file (and only its)
is marked known. -/
theorem migration_not_order_independent_with_duplicate_ids :
    ([taskA, taskB] : List UpgradeConfigTask).Perm [taskB, taskA] ∧
    (upgradeLegacyConfigRun c4Codec [taskA, taskB] [] false).known ≠
      (upgradeLegacyConfigRun c4Codec [taskB, taskA] [] false).known :=
  ⟨List.Perm.swap taskB taskA [], by decide⟩

/-- Witness for the amended C4 at two concrete distinct-ID tasks supplied in
both orders over an empty directory. -/
theorem upgradeLegacyConfigRun_deterministic_witness :
    upgradeLegacyConfigRun c4Codec [taskC, taskD] [] false =
      upgradeLegacyConfigRun c4Codec [taskD, taskC] [] false ∧
    List.Sorted (fun a b => strLe a b = true)
      (upgradeLegacyConfigRun c4Codec [taskC, taskD] [] false).processed :=
  upgradeLegacyConfigRun_deterministic c4Codec [taskC, taskD] [taskD, taskC] [] false
    (List.Perm.swap taskD taskC []) (by decide)

/- ### C2: files written by the run versus knownConfigFiles -/

/-- Claim C2 (code bug): evaluating the migration run at a directory holding
a non-empty legacy `exclude.yml` (with a new entry) and a non-empty central
`godel.yml`, with no plugin tasks: the run writes `godel.yml` (the merged
excludes), yet `godel.yml` is not in `knownConfigFiles` at the end of the
run and is named by the unhandled-files warning — a file the run itself
wrote is reported as unhandled. -/
theorem run_writes_godel_yml_but_warns_unhandled :
    "godel.yml" ∈ (upgradeLegacyConfigRun c2Codec [] c2FS false).state.writes ∧
    "godel.yml" ∉ (upgradeLegacyConfigRun c2Codec [] c2FS false).known ∧
    (upgradeLegacyConfigRun c2Codec [] c2FS false).unhandledWarning =
      some ["godel.yml"] := by
  decide

